import Mathlib

/-!
# Verification of the invoice extraction-normalization pipeline

Shallow embedding of the normalization core of the invoice-parser
repository (files `app.py` and `process_invoice.py`) and proofs of the
frozen claims about it.

Conventions of the embedding:
* Python `str` is modelled as Lean `String` (a list of Unicode scalar
  values); the regex classes `\d` and `\s` are modelled on their ASCII
  parts (`Char.isDigit`, the six ASCII whitespace characters).
* Python `float` results of parsing digit/dot strings are modelled as
  exact rationals `ℚ` (all values produced by the parsers are small
  decimals, where `float` conversion is exact up to representation).
* A value that may be `None` in Python is an `Option`; a function that
  may raise an uncaught exception returns `Except String _`.
-/

namespace InvoiceApp

/-- ASCII decimal digit, the model of the regex class `\d`. -/
def isPyDigit (c : Char) : Bool := c.isDigit

/-- ASCII whitespace, the model of the regex class `\s` and of the
characters removed by Python's `str.strip()`. -/
def isPySpace (c : Char) : Bool :=
  c = ' ' || c = '\t' || c = '\n' || c = '\r' || c = '\x0b' || c = '\x0c'

/-- Numeric value of a list of decimal digits, most significant first
(the value of `int`/`float` on a digits-only string). -/
def digitsVal (l : List Char) : ℕ :=
  l.foldl (fun a c => 10 * a + (c.toNat - 48)) 0

/-- Python `float(s)` restricted to strings of digits and dots, as an
exact rational.  Succeeds exactly when `s` is nonempty, consists of
digits and at most one dot, and contains at least one digit
(`float(".")` and `float("1.2.3")` raise `ValueError`, modelled as
`none`). -/
def pyFloatParts (l : List Char) : Option (ℕ × ℕ) :=
  if (l.all fun c => isPyDigit c || c = '.') = false then none
  else if l.count '.' = 0 then
    if l = [] then none else some (digitsVal l, 0)
  else if l.count '.' = 1 then
    if ((l.takeWhile fun c => c ≠ '.') = [] &&
        ((l.dropWhile fun c => c ≠ '.').tail) = []) = true then none
    else
      some (digitsVal ((l.takeWhile fun c => c ≠ '.') ++
              (l.dropWhile fun c => c ≠ '.').tail),
            ((l.dropWhile fun c => c ≠ '.').tail).length)
  else none

/-- The value `a.b` equals `(digits of a followed by digits of b) /
10 ^ (number of digits of b)`, so the parts determine the rational. -/
def pyFloat (l : List Char) : Option ℚ :=
  (pyFloatParts l).map fun p => (p.1 : ℚ) / (10 : ℚ) ^ p.2

/-- `re.sub(r"[^\d.]", "", text)`: keep only digits and dots. -/
def cleanAmount (l : List Char) : List Char :=
  l.filter fun c => isPyDigit c || c = '.'

/-- `_parse_amount` from `process_invoice.py`: `None`/empty input gives
`None`; otherwise strip every non-digit/non-dot character and convert
with `float`, returning `None` when the remainder is empty or the
conversion raises `ValueError`. -/
def parse_amount (text : Option String) : Option ℚ :=
  match text with
  | none => none
  | some s =>
    if s = "" then none
    else
      let cleaned := cleanAmount s.data
      if cleaned = [] then none else pyFloat cleaned

/-- `_safe_float_conversion` from `app.py`: like `_parse_amount` but
every failure path returns `0.0` instead of `None`. -/
def safe_float_conversion (text : Option String) : ℚ :=
  match text with
  | none => 0
  | some s =>
    if s = "" then 0
    else
      let cleaned := cleanAmount s.data
      if cleaned = [] then 0
      else
        match pyFloat cleaned with
        | some q => q
        | none => 0

/-- Python `str.strip()` on the character-list view. -/
def pyStripList (l : List Char) : List Char :=
  ((l.dropWhile isPySpace).reverse.dropWhile isPySpace).reverse

/-- Python `str.strip()`. -/
def pyStrip (s : String) : String := ⟨pyStripList s.data⟩

/-- The characters of the literal `",;:Â·"` in `process_invoice.py`
line 12 (the file's UTF-8 bytes `2c 3b 3a c3 82 c2 b7` decode to the
five characters comma, semicolon, colon, `Â` (U+00C2) and the middle
dot `·` (U+00B7)). -/
def supplierStripSet : List Char := [',', ';', ':', 'Â', '·']

/-- Python `str.rstrip(set)`: repeatedly remove from the right end any
character belonging to `set`. -/
def rstripChars (cs : List Char) (l : List Char) : List Char :=
  (l.reverse.dropWhile fun c => cs.contains c).reverse

/-- `_clean_supplier` from `process_invoice.py`:
`(name or "").strip().rstrip(",;:Â·")`. -/
def clean_supplier (name : Option String) : String :=
  ⟨rstripChars supplierStripSet (pyStripList (name.getD "").data)⟩

/-- Python `s.replace(c, r)` for a single-character pattern. -/
def pyReplaceChar (c : Char) (r : List Char) : List Char → List Char
  | [] => []
  | a :: t =>
    if a = c then r ++ pyReplaceChar c r t else a :: pyReplaceChar c r t

/-- The newline cleanup applied to every entity's mention text in both
pipelines: `.replace('\n', ' ').replace('\r', '')` (`app.py` line 78,
`process_invoice.py` line 57).  Note `'\r'` is replaced by the *empty*
string. -/
def strip_newlines (s : String) : String :=
  ⟨pyReplaceChar '\r' [] (pyReplaceChar '\n' [' '] s.data)⟩

/-! ## Date normalization (`_normalize_date`, `process_invoice.py`)

`datetime.strptime(s, fmt)` for the seven fixed formats is modelled by
one token parser per directive.  In CPython, `strptime` compiles the
format to a case-insensitive regex (`%Y` is exactly four digits, `%m`
and `%d` are one or two digits constrained to 1–12 resp. 1–31, with a
space-then-digit alternative for `%d`, `%B`/`%b` an alternation of
month names, whitespace in the format matches one or more whitespace
characters) and requires the match to cover the whole
input; the `datetime` constructor then rejects out-of-range calendar
days and the year 0.  Since every numeric token here is followed by a
non-digit delimiter or the end of the input, the regex's digit groups
always consume a maximal digit run. -/

/-- A calendar date as produced by an accepted `strptime` call. -/
structure PyDate where
  year : ℕ
  month : ℕ
  day : ℕ
deriving DecidableEq, Repr

/-- Gregorian leap-year rule used by `datetime`. -/
def isLeapYear (y : ℕ) : Bool :=
  y % 4 = 0 && (y % 100 ≠ 0 || y % 400 = 0)

/-- Length of a month as validated by the `datetime` constructor. -/
def daysInMonth (y m : ℕ) : ℕ :=
  if m = 2 then (if isLeapYear y then 29 else 28)
  else if m = 4 || m = 6 || m = 9 || m = 11 then 30
  else 31

/-- The `datetime(year, month, day)` constructor: rejects year 0 (the
regex caps the year at 4 digits, so `MAXYEAR` cannot be exceeded) and
days beyond the month's length. -/
def mkPyDate (y m d : ℕ) : Option PyDate :=
  if 1 ≤ y && 1 ≤ d && d ≤ daysInMonth y m then some ⟨y, m, d⟩ else none

/-- Numeric directive: a maximal digit run of length `1..maxW` whose
value lies in `lo..hi`. -/
def pNum (maxW lo hi : ℕ) (l : List Char) : Option (ℕ × List Char) :=
  let run := l.takeWhile isPyDigit
  if run.length = 0 || maxW < run.length then none
  else
    let v := digitsVal run
    if lo ≤ v && v ≤ hi then some (v, l.drop run.length) else none

/-- The `%Y` directive: CPython's regex is `\d\d\d\d` — exactly four
digits. -/
def pYear (l : List Char) : Option (ℕ × List Char) :=
  let run := l.takeWhile isPyDigit
  if run.length = 4 then some (digitsVal run, l.drop run.length) else none

/-- The `%d` directive: `3[0-1]|[1-2]\d|0[1-9]|[1-9]| [1-9]` — a one-
or two-digit day 1–31, or (last alternative, reachable only when no
digit starts here) a space followed by one digit 1–9. -/
def pDay (l : List Char) : Option (ℕ × List Char) :=
  match l with
  | ' ' :: c :: t =>
    if isPyDigit c && c ≠ '0' then some (c.toNat - 48, t) else none
  | _ => pNum 2 1 31 l

/-- A literal character of the format string. -/
def pLit (c : Char) : List Char → Option (List Char)
  | [] => none
  | a :: t => if a = c then some t else none

/-- Whitespace in the format string: matches `\s+`. -/
def pWs (l : List Char) : Option (List Char) :=
  let w := l.takeWhile isPySpace
  if w.length = 0 then none else some (l.drop w.length)

/-- Full English month names (`%B`, C locale), lowercase. -/
def monthNamesFull : List (List Char × ℕ) :=
  [("january".data, 1), ("february".data, 2), ("march".data, 3),
   ("april".data, 4), ("may".data, 5), ("june".data, 6),
   ("july".data, 7), ("august".data, 8), ("september".data, 9),
   ("october".data, 10), ("november".data, 11), ("december".data, 12)]

/-- Abbreviated English month names (`%b`, C locale), lowercase. -/
def monthNamesAbbr : List (List Char × ℕ) :=
  [("jan".data, 1), ("feb".data, 2), ("mar".data, 3), ("apr".data, 4),
   ("may".data, 5), ("jun".data, 6), ("jul".data, 7), ("aug".data, 8),
   ("sep".data, 9), ("oct".data, 10), ("nov".data, 11), ("dec".data, 12)]

/-- Month-name directive: case-insensitive match of one of the names
(no month name is a prefix of another within either list, so the order
of the alternation is irrelevant). -/
def pMonthName (names : List (List Char × ℕ)) (l : List Char) :
    Option (ℕ × List Char) :=
  names.findSome? fun nv =>
    if (l.take nv.1.length).map Char.toLower = nv.1 then
      some (nv.2, l.drop nv.1.length)
    else none

/-- `strptime(s, "%Y-%m-%d")`. -/
def fmtYMD (l : List Char) : Option PyDate := do
  let (y, l1) ← pYear l
  let l2 ← pLit '-' l1
  let (m, l3) ← pNum 2 1 12 l2
  let l4 ← pLit '-' l3
  let (d, l5) ← pDay l4
  if l5 = [] then mkPyDate y m d else none

/-- `strptime(s, "%d %B %Y")` / `strptime(s, "%d %b %Y")`, by name list. -/
def fmtDMonY (names : List (List Char × ℕ)) (l : List Char) :
    Option PyDate := do
  let (d, l1) ← pDay l
  let l2 ← pWs l1
  let (m, l3) ← pMonthName names l2
  let l4 ← pWs l3
  let (y, l5) ← pYear l4
  if l5 = [] then mkPyDate y m d else none

/-- `strptime(s, "%d<sep>%m<sep>%Y")`. -/
def fmtDMY (sep : Char) (l : List Char) : Option PyDate := do
  let (d, l1) ← pDay l
  let l2 ← pLit sep l1
  let (m, l3) ← pNum 2 1 12 l2
  let l4 ← pLit sep l3
  let (y, l5) ← pYear l4
  if l5 = [] then mkPyDate y m d else none

/-- `strptime(s, "%m<sep>%d<sep>%Y")`. -/
def fmtMDY (sep : Char) (l : List Char) : Option PyDate := do
  let (m, l1) ← pNum 2 1 12 l
  let l2 ← pLit sep l1
  let (d, l3) ← pDay l2
  let l4 ← pLit sep l3
  let (y, l5) ← pYear l4
  if l5 = [] then mkPyDate y m d else none

/-- The format tuple of `_normalize_date`, in source order:
`("%Y-%m-%d", "%d %B %Y", "%d %b %Y", "%d/%m/%Y", "%m/%d/%Y",
"%d-%m-%Y", "%m-%d-%Y")`. -/
def dateFormats : List (List Char → Option PyDate) :=
  [fmtYMD, fmtDMonY monthNamesFull, fmtDMonY monthNamesAbbr,
   fmtDMY '/', fmtMDY '/', fmtDMY '-', fmtMDY '-']

/-- Two-digit zero padding of `strftime` (`%m`, `%d`). -/
def pad2 (n : ℕ) : String := if n < 10 then "0" ++ toString n else toString n

/-- `dt.strftime("%Y-%m-%d")`.  On this platform (CPython delegating
to glibc `strftime`) the year is rendered unpadded, month and day with
two-digit zero padding. -/
def strftimeYMD (d : PyDate) : String :=
  toString d.year ++ "-" ++ pad2 d.month ++ "-" ++ pad2 d.day

/-- The `for fmt in (…): try: return …; except ValueError: continue`
loop: the first format that parses wins. -/
def tryFormats : List (List Char → Option PyDate) → List Char → Option PyDate
  | [], _ => none
  | f :: fs, l =>
    match f l with
    | some d => some d
    | none => tryFormats fs l

/-- `_normalize_date` from `process_invoice.py`: empty/`None` input
gives `""`; otherwise strip, try the formats in order, re-render the
first success as `YYYY-MM-DD`, and fall back to the stripped original
text when every format fails. -/
def normalize_date (text : Option String) : String :=
  match text with
  | none => ""
  | some s =>
    if s = "" then ""
    else
      let t := pyStrip s
      match tryFormats dateFormats t.data with
      | some d => strftimeYMD d
      | none => t

/-! ## Line-item parsing (`_parse_line_item`, `app.py`)

`re.match(r'(\d+)\s+(.*?)\s+\$?([\d.]+)\s+\$?([\d.]+)', text)` is
modelled by a hand-rolled matcher with the backtracking order of the
Python engine.  Greedy pieces whose follower needs a character from a
disjoint class consume a maximal run with no effective backtracking:
`(\d+)` (follower `\s`), the `\s+` occurrences inside the tail
(followers `$`/`[\d.]`), the two `([\d.]+)` groups (follower `\s`, or
trailing input, which `re.match` leaves unconsumed).  The two real
choice points are the first `\s+` (greedy, tried longest first) and
the lazy `(.*?)` (tried shortest first, exhausted before the first
`\s+` gives up a character); `.` does not match a newline. -/

/-- A character of the class `[\d.]`. -/
def isAmtChar (c : Char) : Bool := isPyDigit c || c = '.'

/-- `\$?([\d.]+)` at the head of `l`: an optional dollar sign, then a
maximal nonempty run of digits and dots (returned with the rest). -/
def matchAmt (l : List Char) : Option (List Char × List Char) :=
  let rest := match l with
    | c :: t => if c = '$' then t else l
    | [] => l
  let g := rest.takeWhile isAmtChar
  if g = [] then none else some (g, rest.drop g.length)

/-- `\s+\$?([\d.]+)\s+\$?([\d.]+)` at the head of `l` (a prefix match;
trailing input is permitted), returning groups 3 and 4. -/
def matchTail (l : List Char) : Option (List Char × List Char) := do
  let l1 ← pWs l
  let (g3, l2) ← matchAmt l1
  let l3 ← pWs l2
  let (g4, _) ← matchAmt l3
  pure (g3, g4)

/-- The lazy `(.*?)` followed by the tail pattern: try the shortest
description first, extending one character at a time; `.` cannot take
a newline.  `acc` holds the reversed description so far. -/
def lazyDesc (acc : List Char) : List Char → Option (List Char × List Char × List Char)
  | [] =>
    match matchTail [] with
    | some (g3, g4) => some (acc.reverse, g3, g4)
    | none => none
  | c :: t =>
    match matchTail (c :: t) with
    | some (g3, g4) => some (acc.reverse, g3, g4)
    | none => if c = '\n' then none else lazyDesc (c :: acc) t

/-- The first `\s+` of the pattern: greedy over the whitespace run
starting `r`, trying `k` consumed characters for `k = w, w-1, …, 1`
and running the lazy description after each choice. -/
def trySpaces (r : List Char) : ℕ → Option (List Char × List Char × List Char)
  | 0 => none
  | k + 1 =>
    match lazyDesc [] (r.drop (k + 1)) with
    | some res => some res
    | none => trySpaces r k

/-- Group extraction of
`re.match(r'(\d+)\s+(.*?)\s+\$?([\d.]+)\s+\$?([\d.]+)', s)`:
`none` models a failed match, otherwise the four captured groups. -/
def lineItemGroups (s : String) :
    Option (List Char × List Char × List Char × List Char) :=
  let l := s.data
  let g1 := l.takeWhile isPyDigit
  if g1 = [] then none
  else
    let r := l.drop g1.length
    let w := r.takeWhile isPySpace
    if w = [] then none
    else
      match trySpaces r w.length with
      | some (g2, g3, g4) => some (g1, g2, g3, g4)
      | none => none

/-- The structured line item built by `_parse_line_item` (keys
`Description`, `Quantity`, `UnitAmount`, `AccountCode`). -/
structure LineItem where
  Description : String
  Quantity : ℚ
  UnitAmount : ℚ
  AccountCode : String
deriving DecidableEq, Repr

/-- `_parse_line_item` from `app.py`: on a match, build the record
from groups 1–3 (group 4, the line total, is discarded); on no match
return `None`.  `float(match.group(3))` can raise `ValueError` (the
group pattern `[\d.]+` admits strings such as `"."`), which no caller
catches — modelled as `Except.error`. -/
def parse_line_item (s : String) : Except String (Option LineItem) :=
  match lineItemGroups s with
  | none => Except.ok none
  | some (g1, g2, g3, _g4) =>
    match pyFloat g1 with
    | none => Except.error "ValueError"
    | some q =>
      match pyFloat g3 with
      | none => Except.error "ValueError"
      | some u =>
        Except.ok (some { Description := pyStrip ⟨g2⟩, Quantity := q,
                          UnitAmount := u, AccountCode := "400" })

/-! ## The `app.py` pipeline (`process_and_transform_for_xero`)

Only the post-extraction part is embedded: the Document AI call is an
external collaborator, and its result is the entity sequence passed in
here.  The entity loop lives inside the function's `try` block, so an
exception it raises is caught and turned into the returned error
dictionary; lines 82–84 (total conversion, line-item parsing, record
assembly) sit *outside* the `try`, so an exception there escapes the
function. -/

/-- One entity of the upstream service: a `(field type, mention text)`
pair (`entity.type_`, `entity.mention_text`). -/
structure RawEntity where
  type_ : String
  mention_text : String
deriving DecidableEq, Repr

/-- A Python value stored in one of the accumulator dictionaries. -/
inductive PyVal where
  | vStr (s : String)
  | vList (l : List String)
  | vNum (q : ℚ)
  | vNone
deriving DecidableEq, Repr

/-- A Python `dict` with string keys, as its insertion-ordered entry
list (keys are unique). -/
abbrev PyDict := List (String × PyVal)

/-- `d[k] = v`: overwrite in place when the key exists, else append. -/
def dictSet (d : PyDict) (k : String) (v : PyVal) : PyDict :=
  if (List.any d fun p => p.1 = k) then
    List.map (fun p => if p.1 = k then (k, v) else p) d
  else d ++ [(k, v)]

/-- `d.get(k)` (and `d[k]` where the key is known to exist). -/
def dictGet (d : PyDict) (k : String) : Option PyVal :=
  Option.map (fun p => p.2) (List.find? (fun p => p.1 = k) d)

/-- The initial accumulator of the loop: `{"line_items": []}`. -/
def initRawData : PyDict := [("line_items", PyVal.vList [])]

/-- The entity loop of `process_and_transform_for_xero` (lines 76–80):
newline-clean each text; `line_item` entities are appended to
`raw_data["line_items"]`, every other field type is stored under its
own name, overwriting.  An entity whose type is the reserved key
`"line_items"` overwrites the list with a string; a later `line_item`
entity then calls `.append` on a string, raising `AttributeError`,
which the surrounding `try` catches (modelled as `Except.error`). -/
def buildRawData : PyDict → List RawEntity → Except String PyDict
  | d, [] => Except.ok d
  | d, e :: rest =>
    let value := strip_newlines e.mention_text
    if e.type_ = "line_item" then
      match dictGet d "line_items" with
      | some (PyVal.vList l) =>
        buildRawData (dictSet d "line_items" (PyVal.vList (l ++ [value]))) rest
      | _ => Except.error "AttributeError"
    else buildRawData (dictSet d e.type_ (PyVal.vStr value)) rest

/-- `raw_data.get(k)` for a key that can only hold a string. -/
def getStrOpt (d : PyDict) (k : String) : Option String :=
  match dictGet d k with
  | some (PyVal.vStr s) => some s
  | _ => none

/-- `raw_data.get(k, default)` for a key that can only hold a string. -/
def getStrD (d : PyDict) (k dflt : String) : String :=
  (getStrOpt d k).getD dflt

/-- `raw_data.get("line_items", [])` as the sequence iterated by the
line-item comprehension; iterating a string (possible after the key
was overwritten) yields its characters as one-character strings. -/
def lineItemTexts (d : PyDict) : List String :=
  match dictGet d "line_items" with
  | some (PyVal.vList l) => l
  | some (PyVal.vStr s) => List.map (fun c => String.mk [c]) s.data
  | _ => []

/-- `[_f for _f in (_parse_line_item(i) for i in …) if _f]`: parse in
order, keep the successful records, propagate an uncaught exception. -/
def parseLineItems : List String → Except String (List LineItem)
  | [] => Except.ok []
  | s :: rest =>
    match parse_line_item s with
    | Except.error e => Except.error e
    | Except.ok none => parseLineItems rest
    | Except.ok (some li) =>
      match parseLineItems rest with
      | Except.error e => Except.error e
      | Except.ok l => Except.ok (li :: l)

/-- The `xero_invoice` record assembled at line 84 (`Contact` is the
nested one-key object `{"Name": …}`, flattened here to `ContactName`;
the JSON-nullable `Total` slot is an `Option`, which the source always
fills with a number). -/
structure XeroInvoice where
  Type_ : String
  ContactName : String
  Date : String
  DueDate : String
  LineAmountTypes : String
  LineItems : List LineItem
  Status : String
  InvoiceNumber : Option String
  CurrencyCode : String
  Total : Option ℚ
deriving DecidableEq, Repr

/-- Observable outcome of `process_and_transform_for_xero` on an
entity sequence: the function can return the assembled invoice, return
the `{"error": …}` dictionary (for an exception caught by its `try`),
or raise an uncaught exception. -/
inductive PipeResult where
  | ok (inv : XeroInvoice)
  | errorDict (msg : String)
  | raised (msg : String)
deriving DecidableEq, Repr

/-- The normalization part of `process_and_transform_for_xero`
(`app.py` lines 75–85), from the extracted entity sequence to the
function's outcome. -/
def process_and_transform (entities : List RawEntity) : PipeResult :=
  match buildRawData initRawData entities with
  | Except.error e => PipeResult.errorDict e
  | Except.ok d =>
    let total_amount_float := safe_float_conversion (getStrOpt d "total_amount")
    match parseLineItems (lineItemTexts d) with
    | Except.error e => PipeResult.raised e
    | Except.ok structured =>
      PipeResult.ok {
        Type_ := "ACCPAY"
        ContactName := getStrD d "supplier_name" "Unknown Supplier"
        Date := getStrD d "invoice_date" "YYYY-MM-DD"
        DueDate := getStrD d "due_date" "YYYY-MM-DD"
        LineAmountTypes := "Exclusive"
        LineItems := structured
        Status := "DRAFT"
        InvoiceNumber := getStrOpt d "invoice_id"
        CurrencyCode := getStrD d "currency" "GBP"
        Total := some total_amount_float }

/-! ## The `process_invoice.py` pipeline (`process_the_invoice`)

Its entity loop (lines 55–66) builds a flat results dictionary.  There
is no repeating field type: every entity, `line_item` included, stores
into its key, overwriting earlier values. -/

/-- The alias set `{"supplier_name", "supplier", "vendor", "seller"}`. -/
def supplierAliases : List String :=
  ["supplier_name", "supplier", "vendor", "seller"]

/-- The alias set `{"invoice_date", "date"}`. -/
def dateAliases : List String := ["invoice_date", "date"]

/-- Inject `_parse_amount`'s `float | None` result into a dict slot. -/
def optPy (q : Option ℚ) : PyVal :=
  match q with
  | some v => PyVal.vNum v
  | none => PyVal.vNone

/-- The entity loop of `process_the_invoice`: newline-clean and strip
each text, then dispatch on the field type (`total_amount` parsed as
an amount, supplier aliases cleaned into `supplier_name`, date aliases
normalized into `invoice_date`, anything else stored verbatim). -/
def process_the_invoice_fields : PyDict → List RawEntity → PyDict
  | d, [] => d
  | d, e :: rest =>
    let etype := e.type_
    let clean_text := pyStrip (strip_newlines e.mention_text)
    if etype = "total_amount" then
      process_the_invoice_fields
        (dictSet d etype (optPy (parse_amount (some clean_text)))) rest
    else if supplierAliases.contains etype then
      process_the_invoice_fields
        (dictSet d "supplier_name" (PyVal.vStr (clean_supplier (some clean_text)))) rest
    else if dateAliases.contains etype then
      process_the_invoice_fields
        (dictSet d "invoice_date" (PyVal.vStr (normalize_date (some clean_text)))) rest
    else
      process_the_invoice_fields (dictSet d etype (PyVal.vStr clean_text)) rest

/-! ## Derived notions used by the statements -/

/-- The newline-cleaned texts of the `line_item` entities, in input
order. -/
def lineTexts (es : List RawEntity) : List String :=
  es.filterMap fun e =>
    if e.type_ = "line_item" then some (strip_newlines e.mention_text)
    else none

/-- The last entity of a given field type, if any. -/
def lastOfType : List RawEntity → String → Option RawEntity
  | [], _ => none
  | e :: t, k =>
    match lastOfType t k with
    | some x => some x
    | none => if e.type_ = k then some e else none

/-- `buildRawData` after replacing each entity by its
`(field type, newline-cleaned text)` pair; used to show the loop
depends on the entities only through these pairs. -/
def buildRawDataKeyed : PyDict → List (String × String) → Except String PyDict
  | d, [] => Except.ok d
  | d, (ty, value) :: rest =>
    if ty = "line_item" then
      match dictGet d "line_items" with
      | some (PyVal.vList l) =>
        buildRawDataKeyed (dictSet d "line_items" (PyVal.vList (l ++ [value]))) rest
      | _ => Except.error "AttributeError"
    else buildRawDataKeyed (dictSet d ty (PyVal.vStr value)) rest

/-- `process_the_invoice_fields` after replacing each entity by its
`(field type, newline-cleaned text)` pair. -/
def processFieldsKeyed : PyDict → List (String × String) → PyDict
  | d, [] => d
  | d, (etype, value) :: rest =>
    let clean_text := pyStrip value
    if etype = "total_amount" then
      processFieldsKeyed
        (dictSet d etype (optPy (parse_amount (some clean_text)))) rest
    else if supplierAliases.contains etype then
      processFieldsKeyed
        (dictSet d "supplier_name" (PyVal.vStr (clean_supplier (some clean_text)))) rest
    else if dateAliases.contains etype then
      processFieldsKeyed
        (dictSet d "invoice_date" (PyVal.vStr (normalize_date (some clean_text)))) rest
    else
      processFieldsKeyed (dictSet d etype (PyVal.vStr clean_text)) rest

/-- The `(field type, newline-cleaned text)` view of an entity. -/
def entityKey (e : RawEntity) : String × String :=
  (e.type_, strip_newlines e.mention_text)

/-- Modelled from the spec: "strips a fixed set of trailing
punctuation characters … repeatedly from the right end" — remove the
last character while it belongs to the set, written as structural
recursion from the right, independently of `rstripChars`, for
comparison. -/
def stripTrailing (cs : List Char) : List Char → List Char
  | [] => []
  | c :: t =>
    if stripTrailing cs t = [] && cs.contains c then []
    else c :: stripTrailing cs t

/-! ## Helper lemmas -/

theorem pyFloat_nil : pyFloat [] = none := rfl

theorem pyFloat_eq_of_parts (l : List Char) (m k : ℕ) (q : ℚ)
    (h : pyFloatParts l = some (m, k)) (hq : (m : ℚ) / (10 : ℚ) ^ k = q) :
    pyFloat l = some q := by
  simp [pyFloat, h, hq]

theorem pyFloat_digits (l : List Char) (hne : l ≠ []) (hd : l.all isPyDigit = true) :
    pyFloat l = some (digitsVal l) := by
  have hall : (l.all fun c => isPyDigit c || c = '.') = true := by
    simp only [List.all_eq_true] at hd ⊢
    intro c hc
    simp [hd c hc]
  have hcount : l.count '.' = 0 := by
    rw [List.count_eq_zero]
    intro hmem
    have := List.all_eq_true.mp hd _ hmem
    simp [isPyDigit] at this
  have hp : pyFloatParts l = some (digitsVal l, 0) := by
    simp [pyFloatParts, hall, hcount, hne]
  exact pyFloat_eq_of_parts l (digitsVal l) 0 _ hp (by simp)

theorem pyFloat_nonneg (l : List Char) (q : ℚ) (h : pyFloat l = some q) : 0 ≤ q := by
  unfold pyFloat at h
  cases hp : pyFloatParts l with
  | none => rw [hp] at h; exact absurd h (by simp)
  | some p =>
    rw [hp] at h
    simp only [Option.map_some'] at h
    injection h with h'
    rw [← h']
    positivity

theorem tryFormats_none (fs : List (List Char → Option PyDate)) (l : List Char)
    (h : ∀ f ∈ fs, f l = none) : tryFormats fs l = none := by
  induction fs with
  | nil => rfl
  | cons f fs ih =>
    have hf := h f (List.mem_cons_self f fs)
    simp only [tryFormats, hf]
    exact ih fun g hg => h g (List.mem_cons_of_mem f hg)

theorem tryFormats_first (fs : List (List Char → Option PyDate)) (l : List Char) :
    ∀ i d, (fs.getD i fun _ => none) l = some d →
      (∀ j, j < i → (fs.getD j fun _ => none) l = none) →
      tryFormats fs l = some d := by
  induction fs with
  | nil =>
    intro i d h _
    simp only [List.getD, List.getElem?_nil, Option.getD_none] at h
    exact absurd h (by simp)
  | cons f fs ih =>
    intro i d h hprev
    cases i with
    | zero =>
      rw [List.getD_cons_zero] at h
      simp only [tryFormats, h]
    | succ n =>
      have h0 := hprev 0 (Nat.succ_pos n)
      rw [List.getD_cons_zero] at h0
      rw [List.getD_cons_succ] at h
      simp only [tryFormats, h0]
      exact ih n d h fun j hj => by
        have := hprev (j + 1) (Nat.succ_lt_succ hj)
        rwa [List.getD_cons_succ] at this

theorem replace_nl_cr (l : List Char) :
    pyReplaceChar '\r' [] (pyReplaceChar '\n' [' '] l) =
      List.filter (fun c => c ≠ '\r')
        (List.map (fun c => if c = '\n' then ' ' else c) l) := by
  induction l with
  | nil => rfl
  | cons c t ih =>
    by_cases h1 : c = '\n'
    · subst h1
      simp [pyReplaceChar, ih]
    · by_cases h2 : c = '\r'
      · subst h2
        simp [pyReplaceChar, ih]
      · simp [pyReplaceChar, h1, h2, ih]

theorem buildRawData_eq_keyed (es : List RawEntity) :
    ∀ d : PyDict, buildRawData d es = buildRawDataKeyed d (es.map entityKey) := by
  induction es with
  | nil => intro d; rfl
  | cons e t ih =>
    intro d
    by_cases hli : e.type_ = "line_item"
    · simp only [List.map_cons, buildRawData, buildRawDataKeyed, entityKey,
        hli, if_pos]
      cases dictGet d "line_items" with
      | none => rfl
      | some v => cases v <;> first | rfl | exact ih _
    · simp only [List.map_cons, buildRawData, buildRawDataKeyed, entityKey,
        hli, if_neg, if_false]
      exact ih _

theorem processFields_eq_keyed (es : List RawEntity) :
    ∀ d : PyDict,
      process_the_invoice_fields d es = processFieldsKeyed d (es.map entityKey) := by
  induction es with
  | nil => intro d; rfl
  | cons e t ih =>
    intro d
    by_cases h1 : e.type_ = "total_amount"
    · simp [process_the_invoice_fields, processFieldsKeyed, entityKey, h1, ih]
    · by_cases h2 : e.type_ ∈ supplierAliases
      · simp [process_the_invoice_fields, processFieldsKeyed, entityKey,
          h1, h2, ih]
      · by_cases h3 : e.type_ ∈ dateAliases
        · simp [process_the_invoice_fields, processFieldsKeyed, entityKey,
            h1, h2, h3, ih]
        · simp [process_the_invoice_fields, processFieldsKeyed, entityKey,
            h1, h2, h3, ih]

theorem reverse_dropWhile_eq_rstrip (cs : List Char) (t : List Char) :
    (t.reverse.dropWhile fun x => cs.contains x).reverse = rstripChars cs t :=
  rfl

theorem rstripChars_eq_stripTrailing (cs : List Char) (l : List Char) :
    rstripChars cs l = stripTrailing cs l := by
  induction l with
  | nil => rfl
  | cons c t ih =>
    rw [rstripChars, show (c :: t).reverse = t.reverse ++ [c] by simp,
      List.dropWhile_append]
    simp only [stripTrailing]
    cases hX : t.reverse.dropWhile (fun x => cs.contains x) with
    | nil =>
      have hst : stripTrailing cs t = [] := by
        rw [← ih, ← reverse_dropWhile_eq_rstrip, hX, List.reverse_nil]
      rw [hst]
      simp only [hX, List.isEmpty_nil, if_true]
      by_cases hcc : c ∈ cs
      · simp [hcc, List.dropWhile]
      · simp [hcc, List.dropWhile]
    | cons y ys =>
      have hst : stripTrailing cs t ≠ [] := by
        rw [← ih, ← reverse_dropWhile_eq_rstrip, hX]
        simp
      rw [if_neg (show ¬ (y :: ys).isEmpty = true by simp),
        if_neg (by simp [hst])]
      rw [show y :: ys ++ [c] = (y :: ys) ++ [c] from rfl, ← hX]
      rw [List.reverse_append]
      simp only [List.reverse_cons, List.reverse_nil, List.nil_append,
        List.singleton_append]
      rw [reverse_dropWhile_eq_rstrip, ih]

theorem dictGet_dictSet_self (d : PyDict) (k : String) (v : PyVal) :
    dictGet (dictSet d k v) k = some v := by
  unfold dictSet dictGet
  by_cases hany : List.any d (fun p => p.1 = k) = true
  · rw [if_pos hany, List.find?_map]
    have hpred : ((fun p : String × PyVal => decide (p.1 = k)) ∘
        fun p => if p.1 = k then (k, v) else p) =
        fun p : String × PyVal => decide (p.1 = k) := by
      funext p
      by_cases hp : p.1 = k <;> simp [Function.comp, hp]
    rw [hpred]
    cases hfind : List.find? (fun p : String × PyVal => decide (p.1 = k)) d with
    | none =>
      rw [List.find?_eq_none] at hfind
      rw [List.any_eq_true] at hany
      obtain ⟨x, hx, hxk⟩ := hany
      exact absurd (by simpa using hxk) (by simpa using hfind x hx)
    | some a =>
      have ha : a.1 = k := by simpa using List.find?_some hfind
      simp [ha]
  · rw [if_neg hany, List.find?_append]
    have hnone : List.find? (fun p : String × PyVal => decide (p.1 = k)) d = none := by
      rw [List.find?_eq_none]
      intro x hx
      rw [Bool.not_eq_true, List.any_eq_false] at hany
      simpa using hany x hx
    simp [hnone, List.find?]

theorem dictGet_dictSet_ne (d : PyDict) (k k' : String) (v : PyVal)
    (h : k' ≠ k) : dictGet (dictSet d k v) k' = dictGet d k' := by
  unfold dictSet dictGet
  by_cases hany : List.any d (fun p => p.1 = k) = true
  · rw [if_pos hany, List.find?_map]
    have hpred : ((fun p : String × PyVal => decide (p.1 = k')) ∘
        fun p => if p.1 = k then (k, v) else p) =
        fun p : String × PyVal => decide (p.1 = k') := by
      funext p
      by_cases hp : p.1 = k
      · simp [Function.comp, hp, Ne.symm h]
      · simp [Function.comp, hp]
    rw [hpred]
    cases hfind : List.find? (fun p : String × PyVal => decide (p.1 = k')) d with
    | none => simp
    | some a =>
      have ha : a.1 = k' := by simpa using List.find?_some hfind
      have hak : ¬ a.1 = k := fun hh => h (ha.symm.trans hh)
      simp [hak]
  · rw [if_neg hany, List.find?_append]
    have hsing : List.find? (fun p : String × PyVal => decide (p.1 = k')) [(k, v)] = none := by
      simp [List.find?, Ne.symm h]
    rw [hsing]
    cases List.find? (fun p : String × PyVal => decide (p.1 = k')) d <;> rfl

theorem lastOfType_cons_ne (e : RawEntity) (t : List RawEntity) (k : String)
    (h : ¬ e.type_ = k) : lastOfType (e :: t) k = lastOfType t k := by
  cases ht : lastOfType t k <;> simp [lastOfType, ht, h]

theorem lastOfType_cons_of_none (e : RawEntity) (t : List RawEntity) (k : String)
    (he : e.type_ = k) (ht : lastOfType t k = none) :
    lastOfType (e :: t) k = some e := by
  simp [lastOfType, ht, he]

theorem lastOfType_cons_of_some (e : RawEntity) (t : List RawEntity) (k : String)
    (x : RawEntity) (ht : lastOfType t k = some x) :
    lastOfType (e :: t) k = some x := by
  simp [lastOfType, ht]

/-- Invariant of the `app.py` entity loop, for any starting dictionary
whose `"line_items"` entry is a list: when no entity carries the
reserved type `"line_items"`, the loop completes, the list collects
the `line_item` texts in input order, and every other key holds the
last write for its field type. -/
theorem buildRawData_char (es : List RawEntity) :
    (∀ e ∈ es, e.type_ ≠ "line_items") →
    ∀ (d0 : PyDict) (l0 : List String),
      dictGet d0 "line_items" = some (PyVal.vList l0) →
      ∃ d, buildRawData d0 es = Except.ok d ∧
        dictGet d "line_items" = some (PyVal.vList (l0 ++ lineTexts es)) ∧
        ∀ k, k ≠ "line_items" → k ≠ "line_item" →
          dictGet d k = (match lastOfType es k with
            | some e => some (PyVal.vStr (strip_newlines e.mention_text))
            | none => dictGet d0 k) := by
  induction es with
  | nil =>
    intro _ d0 l0 h0
    exact ⟨d0, rfl, by simpa [lineTexts] using h0,
      fun k _ _ => by simp [lastOfType]⟩
  | cons e t ih =>
    intro hne d0 l0 h0
    have hne0 : e.type_ ≠ "line_items" := hne e (List.mem_cons_self e t)
    have hnet : ∀ x ∈ t, x.type_ ≠ "line_items" :=
      fun x hx => hne x (List.mem_cons_of_mem e hx)
    by_cases hli : e.type_ = "line_item"
    · have hstep : buildRawData d0 (e :: t) =
          buildRawData
            (dictSet d0 "line_items"
              (PyVal.vList (l0 ++ [strip_newlines e.mention_text]))) t := by
        simp [buildRawData, hli, h0]
      obtain ⟨d, hd, h1, h2⟩ := ih hnet
        (dictSet d0 "line_items"
          (PyVal.vList (l0 ++ [strip_newlines e.mention_text])))
        (l0 ++ [strip_newlines e.mention_text])
        (dictGet_dictSet_self _ _ _)
      refine ⟨d, hstep.trans hd, ?_, ?_⟩
      · rw [h1]
        simp [lineTexts, hli, List.filterMap_cons]
      · intro k hk1 hk2
        rw [h2 k hk1 hk2]
        rw [lastOfType_cons_ne e t k (by rw [hli]; exact fun hh => hk2 hh.symm)]
        cases hl : lastOfType t k
        · simp only []
          rw [dictGet_dictSet_ne d0 "line_items" k _ hk1]
        · rfl
    · have hstep : buildRawData d0 (e :: t) =
          buildRawData
            (dictSet d0 e.type_ (PyVal.vStr (strip_newlines e.mention_text)))
            t := by
        simp [buildRawData, hli]
      obtain ⟨d, hd, h1, h2⟩ := ih hnet
        (dictSet d0 e.type_ (PyVal.vStr (strip_newlines e.mention_text))) l0
        (by rw [dictGet_dictSet_ne d0 e.type_ "line_items" _ (Ne.symm hne0)]
            exact h0)
      refine ⟨d, hstep.trans hd, ?_, ?_⟩
      · rw [h1]
        simp [lineTexts, hli]
      · intro k hk1 hk2
        rw [h2 k hk1 hk2]
        by_cases hek : e.type_ = k
        · cases hl : lastOfType t k
          · rw [lastOfType_cons_of_none e t k hek hl]
            simp only []
            rw [← hek, dictGet_dictSet_self]
          · rw [lastOfType_cons_of_some e t k _ hl]
        · rw [lastOfType_cons_ne e t k hek]
          cases hl : lastOfType t k
          · simp only []
            rw [dictGet_dictSet_ne d0 e.type_ k _ (fun hh => hek hh.symm)]
          · rfl

/-- Invariant of the `process_invoice.py` entity loop: the
`"line_item"` key holds the cleaned text of the *last* `line_item`
entity (there is no accumulation into a sequence). -/
theorem process_fields_line_item (es : List RawEntity) :
    ∀ d0 : PyDict,
      dictGet (process_the_invoice_fields d0 es) "line_item" =
        (match lastOfType es "line_item" with
         | some e => some (PyVal.vStr (pyStrip (strip_newlines e.mention_text)))
         | none => dictGet d0 "line_item") := by
  induction es with
  | nil =>
    intro d0
    simp [process_the_invoice_fields, lastOfType]
  | cons e t ih =>
    intro d0
    by_cases h1 : e.type_ = "total_amount"
    · have hstep : process_the_invoice_fields d0 (e :: t) =
          process_the_invoice_fields
            (dictSet d0 e.type_
              (optPy (parse_amount
                (some (pyStrip (strip_newlines e.mention_text)))))) t := by
        simp [process_the_invoice_fields, h1]
      rw [hstep, ih]
      rw [lastOfType_cons_ne e t _ (by rw [h1]; decide)]
      cases hl : lastOfType t "line_item"
      · simp only []
        rw [dictGet_dictSet_ne d0 e.type_ _ _ (by rw [h1]; decide)]
      · rfl
    · by_cases h2 : e.type_ ∈ supplierAliases
      · have hne : ¬ e.type_ = "line_item" := by
          intro hh
          rw [hh] at h2
          simp [supplierAliases] at h2
        have hstep : process_the_invoice_fields d0 (e :: t) =
            process_the_invoice_fields
              (dictSet d0 "supplier_name"
                (PyVal.vStr (clean_supplier
                  (some (pyStrip (strip_newlines e.mention_text)))))) t := by
          simp [process_the_invoice_fields, h1, h2]
        rw [hstep, ih]
        rw [lastOfType_cons_ne e t _ hne]
        cases hl : lastOfType t "line_item"
        · simp only []
          rw [dictGet_dictSet_ne d0 "supplier_name" _ _ (by decide)]
        · rfl
      · by_cases h3 : e.type_ ∈ dateAliases
        · have hne : ¬ e.type_ = "line_item" := by
            intro hh
            rw [hh] at h3
            simp [dateAliases] at h3
          have hstep : process_the_invoice_fields d0 (e :: t) =
              process_the_invoice_fields
                (dictSet d0 "invoice_date"
                  (PyVal.vStr (normalize_date
                    (some (pyStrip (strip_newlines e.mention_text)))))) t := by
            simp [process_the_invoice_fields, h1, h2, h3]
          rw [hstep, ih]
          rw [lastOfType_cons_ne e t _ hne]
          cases hl : lastOfType t "line_item"
          · simp only []
            rw [dictGet_dictSet_ne d0 "invoice_date" _ _ (by decide)]
          · rfl
        · have hstep : process_the_invoice_fields d0 (e :: t) =
              process_the_invoice_fields
                (dictSet d0 e.type_
                  (PyVal.vStr (pyStrip (strip_newlines e.mention_text)))) t := by
            simp [process_the_invoice_fields, h1, h2, h3]
          rw [hstep, ih]
          by_cases hek : e.type_ = "line_item"
          · cases hl : lastOfType t "line_item"
            · rw [lastOfType_cons_of_none e t _ hek hl]
              simp only []
              rw [← hek, dictGet_dictSet_self]
            · rw [lastOfType_cons_of_some e t _ _ hl]
          · rw [lastOfType_cons_ne e t _ hek]
            cases hl : lastOfType t "line_item"
            · simp only []
              rw [dictGet_dictSet_ne d0 e.type_ _ _ (fun hh => hek hh.symm)]
            · rfl

theorem lineItemGroups_g1 (s : String) (g1 g2 g3 g4 : List Char)
    (h : lineItemGroups s = some (g1, g2, g3, g4)) :
    g1 = s.data.takeWhile isPyDigit ∧ g1 ≠ [] := by
  simp only [lineItemGroups] at h
  split at h
  · exact absurd h (by simp)
  next hne =>
    split at h
    · exact absurd h (by simp)
    · split at h
      next a b c heq =>
        injection h with h'
        simp only [Prod.mk.injEq] at h'
        obtain ⟨h1, -, -, -⟩ := h'
        exact ⟨h1.symm, h1 ▸ hne⟩
      · exact absurd h (by simp)

theorem parse_line_item_inv (s : String) (li : LineItem)
    (h : parse_line_item s = Except.ok (some li)) :
    Option.map (fun g => pyStrip ⟨g.2.1⟩) (lineItemGroups s) =
      some li.Description ∧
    Option.map (fun g => (digitsVal g.1 : ℚ)) (lineItemGroups s) =
      some li.Quantity ∧
    Option.bind (lineItemGroups s) (fun g => pyFloat g.2.2.1) =
      some li.UnitAmount ∧
    li.AccountCode = "400" := by
  unfold parse_line_item at h
  cases hg : lineItemGroups s with
  | none => rw [hg] at h; exact absurd h (by simp)
  | some g =>
    obtain ⟨g1, g2, g3, g4⟩ := g
    simp only [hg] at h
    cases h1 : pyFloat g1 with
    | none => simp only [h1] at h; exact absurd h (by simp)
    | some q =>
      simp only [h1] at h
      cases h3 : pyFloat g3 with
      | none => simp only [h3] at h; exact absurd h (by simp)
      | some u =>
        simp only [h3] at h
        injection h with h'
        injection h' with h''
        obtain ⟨hg1eq, hg1ne⟩ := lineItemGroups_g1 s g1 g2 g3 g4 hg
        have hdig : g1.all isPyDigit = true := by
          rw [hg1eq]
          exact List.all_eq_true.mpr fun c hc => List.mem_takeWhile_imp hc
        have hq1 := pyFloat_digits g1 hg1ne hdig
        rw [hq1] at h1
        injection h1 with h1'
        subst h''
        refine ⟨?_, ?_, ?_, rfl⟩ <;> simp [hg, h1', h3]

/-! ## The claims -/

/-- C1: the spec says the normalization step never raises — every
per-field parse failure degrades to its fallback.  The code violates
this: on a line-item text whose captured amount group is `"."`, the
regex matches but `float(match.group(3))` raises `ValueError`, and
`_parse_line_item` is called outside the `try` block of
`process_and_transform_for_xero`, so the exception escapes. -/
theorem claim1_normalization_raises :
    process_and_transform [⟨"line_item", "1 a . ."⟩] =
      PipeResult.raised "ValueError" ∧
    parse_line_item "1 a . ." = Except.error "ValueError" :=
  ⟨rfl, rfl⟩

/-- C2 counterexample: with the single entity
`("total_amount", "abc")` the accumulated total text is unparseable,
yet the assembled invoice's `Total` is the number `0.0`, not null —
the claim's "null when unparseable, never 0.0" fails on
`process_and_transform_for_xero`, whose `_safe_float_conversion`
returns `0.0` on every failure path. -/
theorem claim2_total_counterexample :
    process_and_transform [⟨"total_amount", "abc"⟩] =
      PipeResult.ok
        { Type_ := "ACCPAY", ContactName := "Unknown Supplier",
          Date := "YYYY-MM-DD", DueDate := "YYYY-MM-DD",
          LineAmountTypes := "Exclusive", LineItems := [],
          Status := "DRAFT", InvoiceNumber := none,
          CurrencyCode := "GBP", Total := some 0 } ∧
    (some (0 : ℚ) : Option ℚ) ≠ none :=
  ⟨rfl, by decide⟩

/-- C2 amended: the assembled invoice's `Total` is always a number,
never null: `_safe_float_conversion` yields `0.0` exactly on the
failure paths the claim lists (text absent, empty after stripping
non-digit/non-dot characters, or rejected by `float`) and the parsed
value otherwise, and the pipeline stores its result under `Total`. -/
theorem claim2_total_amended :
    (∀ t : Option String,
      (t = none ∨ t = some "" ∨ cleanAmount ((t.getD "").data) = [] ∨
        pyFloat (cleanAmount ((t.getD "").data)) = none) →
      safe_float_conversion t = 0) ∧
    (∀ s q, pyFloat (cleanAmount s.data) = some q →
      safe_float_conversion (some s) = q) ∧
    (∀ es inv, process_and_transform es = PipeResult.ok inv →
      inv.Total ≠ none ∧
      ∀ d, buildRawData initRawData es = Except.ok d →
        inv.Total = some (safe_float_conversion (getStrOpt d "total_amount"))) := by
  refine ⟨?_, ?_, ?_⟩
  · intro t h
    match t with
    | none => rfl
    | some s =>
      rcases h with h | h | h | h
      · exact absurd h (by simp)
      · injection h with h'
        subst h'
        rfl
      · by_cases hs : s = ""
        · subst hs; rfl
        · simp only [Option.getD_some] at h
          simp [safe_float_conversion, hs, h]
      · by_cases hs : s = ""
        · subst hs; rfl
        · simp only [Option.getD_some] at h
          by_cases hc : cleanAmount s.data = []
          · simp [safe_float_conversion, hs, hc]
          · simp [safe_float_conversion, hs, hc, h]
  · intro s q h
    have hc : cleanAmount s.data ≠ [] := by
      intro he
      rw [he, pyFloat_nil] at h
      exact absurd h (by simp)
    have hs : s ≠ "" := by
      intro he
      subst he
      exact hc rfl
    simp [safe_float_conversion, hs, hc, h]
  · intro es inv h
    simp only [process_and_transform] at h
    cases hb : buildRawData initRawData es with
    | error e => simp only [hb] at h; exact absurd h (by simp)
    | ok d =>
      simp only [hb] at h
      cases hp : parseLineItems (lineItemTexts d) with
      | error e => simp only [hp] at h; exact absurd h (by simp)
      | ok items =>
        simp only [hp] at h
        injection h with h'
        subst h'
        refine ⟨by simp, ?_⟩
        intro d' hd'
        obtain rfl : d' = d := (Except.ok.inj hd').symm
        rfl

/-- C2 amended witness: the zero clause applied at `"abc"` and the
parsed-value clause applied at `"£123.45"`. -/
theorem claim2_total_amended_witness :
    safe_float_conversion (some "abc") = 0 ∧
    safe_float_conversion (some "£123.45") = (2469 : ℚ) / 20 :=
  ⟨claim2_total_amended.1 (some "abc") (Or.inr (Or.inr (Or.inl (by decide)))),
   claim2_total_amended.2.1 "£123.45" ((2469 : ℚ) / 20)
     (pyFloat_eq_of_parts _ 12345 2 _ (by decide) (by norm_num))⟩

/-- C3 counterexample: in `process_the_invoice` (`process_invoice.py`
lines 54–66, cited by the claim) a `line_item` entity is *not*
appended to an ordered sequence: it lands in the generic
`results_dict[etype] = clean_text` branch, so a second `line_item`
entity overwrites the first — after `[("line_item", "a"),
("line_item", "b")]` the dictionary holds only `"b"`. -/
theorem claim3_accumulation_counterexample :
    process_the_invoice_fields [] [⟨"line_item", "a"⟩, ⟨"line_item", "b"⟩] =
      [("line_item", PyVal.vStr "b")] := rfl

/-- C3 amended: in `process_and_transform_for_xero` the accumulation
is as the claim says — provided no entity carries the reserved field
type `"line_items"` (which would clobber the list): `line_item`
entities append to the `"line_items"` sequence in input order, and for
every other field type the last occurrence's newline-cleaned text wins.
In `process_the_invoice`, however, there is no repeating field type:
every field type, `line_item` included, overwrites (last write wins). -/
theorem claim3_accumulation_amended :
    (∀ es d, (∀ e ∈ es, e.type_ ≠ "line_items") →
      buildRawData initRawData es = Except.ok d →
      dictGet d "line_items" = some (PyVal.vList (lineTexts es)) ∧
      ∀ k, k ≠ "line_items" → k ≠ "line_item" →
        dictGet d k =
          Option.map (fun e => PyVal.vStr (strip_newlines e.mention_text))
            (lastOfType es k)) ∧
    (∀ es, dictGet (process_the_invoice_fields [] es) "line_item" =
      Option.map (fun e => PyVal.vStr (pyStrip (strip_newlines e.mention_text)))
        (lastOfType es "line_item")) := by
  constructor
  · intro es d hne hok
    obtain ⟨d', hd', h1, h2⟩ := buildRawData_char es hne initRawData [] rfl
    obtain rfl : d = d' := Except.ok.inj (hok.symm.trans hd')
    refine ⟨by simpa using h1, ?_⟩
    intro k hk1 hk2
    rw [h2 k hk1 hk2]
    cases hl : lastOfType es k
    · simp only [Option.map_none']
      simp [initRawData, dictGet, List.find?, Ne.symm hk1]
    · simp
  · intro es
    rw [process_fields_line_item es []]
    cases hl : lastOfType es "line_item" <;> simp [dictGet]

/-- C3 amended witness: the `app.py` clause applied at a concrete
two-entity sequence and the `process_the_invoice` clause applied at
two `line_item` entities (the dictionary keeps only the last). -/
theorem claim3_accumulation_amended_witness :
    dictGet [("line_items", PyVal.vList ["a"]),
             ("supplier_name", PyVal.vStr "B")] "line_items" =
      some (PyVal.vList ["a"]) ∧
    dictGet (process_the_invoice_fields []
        [⟨"line_item", "a"⟩, ⟨"line_item", "b"⟩]) "line_item" =
      some (PyVal.vStr "b") :=
  ⟨(claim3_accumulation_amended.1 [⟨"line_item", "a"⟩, ⟨"supplier_name", "B"⟩]
      [("line_items", PyVal.vList ["a"]), ("supplier_name", PyVal.vStr "B")]
      (by decide) rfl).1,
   claim3_accumulation_amended.2 [⟨"line_item", "a"⟩, ⟨"line_item", "b"⟩]⟩

/-- C4: `_normalize_date` returns `""` on missing/empty input, strips
the text, tries the seven formats in their fixed order (the first
success is re-rendered as `YYYY-MM-DD`, so `"03/04/2024"` resolves as
`DD/MM/YYYY`), and returns the stripped original text when every
format fails. -/
theorem claim4_normalize_date_spec :
    normalize_date none = "" ∧
    normalize_date (some "") = "" ∧
    (∀ s, (∀ f ∈ dateFormats, f (pyStrip s).data = none) →
      normalize_date (some s) = pyStrip s) ∧
    (∀ s i d, (dateFormats.getD i fun _ => none) (pyStrip s).data = some d →
      (∀ j, j < i → (dateFormats.getD j fun _ => none) (pyStrip s).data = none) →
      normalize_date (some s) = strftimeYMD d) ∧
    normalize_date (some "2024-03-07") = "2024-03-07" ∧
    normalize_date (some "07 March 2024") = "2024-03-07" ∧
    normalize_date (some "07 Mar 2024") = "2024-03-07" ∧
    normalize_date (some "03/04/2024") = "2024-04-03" ∧
    normalize_date (some "not a date") = "not a date" := by
  refine ⟨rfl, rfl, ?_, ?_, by decide, by decide, by decide, by decide, by decide⟩
  · intro s h
    by_cases hs : s = ""
    · subst hs; decide
    · have hnone : tryFormats dateFormats (pyStrip s).data = none :=
        tryFormats_none _ _ h
      simp [normalize_date, hs, hnone]
  · intro s i d h hprev
    have hnil : ∀ k, (dateFormats.getD k fun _ => none) ([] : List Char) = none := by
      intro k
      match k with
      | 0 => decide
      | 1 => decide
      | 2 => decide
      | 3 => decide
      | 4 => decide
      | 5 => decide
      | 6 => decide
      | n + 7 =>
        rw [List.getD_eq_getElem?_getD]
        rw [List.getElem?_eq_none (by simp [dateFormats])]
        rfl
    have hs : s ≠ "" := by
      intro he
      subst he
      rw [show (pyStrip "").data = [] from rfl] at h
      rw [hnil i] at h
      exact absurd h (by simp)
    have hmain : tryFormats dateFormats (pyStrip s).data = some d :=
      tryFormats_first _ _ i d h hprev
    simp [normalize_date, hs, hmain]

/-- C4 witness: the first-match clause applied at `"03/04/2024"`
(format index 3, `DD/MM/YYYY`) and the fallback clause applied at
`"not a date"`. -/
theorem claim4_normalize_date_witness :
    normalize_date (some "03/04/2024") = strftimeYMD ⟨2024, 4, 3⟩ ∧
    normalize_date (some "not a date") = pyStrip "not a date" :=
  ⟨claim4_normalize_date_spec.2.2.2.1 "03/04/2024" 3 ⟨2024, 4, 3⟩ (by decide)
      (by intro j hj; interval_cases j <;> decide),
   claim4_normalize_date_spec.2.2.1 "not a date" (by decide)⟩

/-- C5: `_parse_amount` returns `None` on missing/empty input; it
strips every character that is not a digit or `'.'`, returns `None`
when the remainder is empty or `float` rejects it (e.g. several dots),
and otherwise returns the parsed number. -/
theorem claim5_parse_amount_spec :
    parse_amount none = none ∧
    parse_amount (some "") = none ∧
    parse_amount (some "£2,604.00") = some 2604 ∧
    parse_amount (some "abc") = none ∧
    parse_amount (some "12.34.56") = none ∧
    (∀ s, parse_amount (some s) = none ↔
      (cleanAmount s.data = [] ∨ pyFloat (cleanAmount s.data) = none)) ∧
    (∀ s q, pyFloat (cleanAmount s.data) = some q →
      parse_amount (some s) = some q) := by
  have h2604 : pyFloat (cleanAmount ("£2,604.00" : String).data) = some 2604 :=
    pyFloat_eq_of_parts _ 260400 2 2604 (by decide) (by norm_num)
  refine ⟨rfl, rfl, ?_, by decide, by decide, ?_, ?_⟩
  · simpa [parse_amount, show cleanAmount ("£2,604.00" : String).data ≠ [] by decide]
      using h2604
  · intro s
    by_cases hs : s = ""
    · subst hs
      simp [parse_amount, show cleanAmount ("" : String).data = [] from rfl]
    · simp only [parse_amount, hs, if_false]
      by_cases hc : cleanAmount s.data = []
      · simp [hc]
      · simp [hc]
  · intro s q h
    have hc : cleanAmount s.data ≠ [] := by
      intro he
      rw [he, pyFloat_nil] at h
      exact absurd h (by simp)
    have hs : s ≠ "" := by
      intro he
      subst he
      exact hc rfl
    simp [parse_amount, hs, hc, h]

/-- C5 witness: the parsed-number clause applied at `"£2,604.00"`. -/
theorem claim5_parse_amount_witness :
    parse_amount (some "£2,604.00") = some 2604 :=
  claim5_parse_amount_spec.2.2.2.2.2.2 "£2,604.00" 2604
    (pyFloat_eq_of_parts _ 260400 2 2604 (by decide) (by norm_num))

/-- C6: `_parse_line_item` produces a record only when the regex
matches (the record's description is group 2 trimmed, its quantity the
integer of group 1, its unit amount the `float` of group 3, group 4 is
discarded, and the account code is always the literal `"400"`); when
the text does not match it returns `None`; and the two documented
examples hold. -/
theorem claim6_parse_line_item_spec :
    (∀ s, lineItemGroups s = none → parse_line_item s = Except.ok none) ∧
    (∀ s li, parse_line_item s = Except.ok (some li) →
      Option.map (fun g => pyStrip ⟨g.2.1⟩) (lineItemGroups s) =
        some li.Description ∧
      Option.map (fun g => (digitsVal g.1 : ℚ)) (lineItemGroups s) =
        some li.Quantity ∧
      Option.bind (lineItemGroups s) (fun g => pyFloat g.2.2.1) =
        some li.UnitAmount ∧
      li.AccountCode = "400") ∧
    parse_line_item "2 Widget A $10.00 $20.00" =
      Except.ok (some { Description := "Widget A", Quantity := 2,
                        UnitAmount := 10, AccountCode := "400" }) ∧
    parse_line_item "garbage text" = Except.ok none := by
  refine ⟨?_, ?_, ?_, rfl⟩
  · intro s h
    simp [parse_line_item, h]
  · exact parse_line_item_inv
  · have hg : lineItemGroups "2 Widget A $10.00 $20.00" =
        some ("2".data, "Widget A".data, "10.00".data, "20.00".data) := by
      decide
    have hq : pyFloat "2".data = some 2 :=
      pyFloat_eq_of_parts _ 2 0 2 (by decide) (by norm_num)
    have hu : pyFloat "10.00".data = some 10 :=
      pyFloat_eq_of_parts _ 1000 2 10 (by decide) (by norm_num)
    simp [parse_line_item, hg, hq, hu]
    decide

/-- C6 witness: the record clause applied at the documented example
(using the example clause of the theorem itself to discharge the
hypothesis). -/
theorem claim6_parse_line_item_witness :
    Option.map (fun g => pyStrip ⟨g.2.1⟩)
      (lineItemGroups "2 Widget A $10.00 $20.00") = some "Widget A" ∧
    Option.map (fun g => (digitsVal g.1 : ℚ))
      (lineItemGroups "2 Widget A $10.00 $20.00") = some 2 ∧
    Option.bind (lineItemGroups "2 Widget A $10.00 $20.00")
      (fun g => pyFloat g.2.2.1) = some 10 ∧
    ({ Description := "Widget A", Quantity := 2, UnitAmount := 10,
       AccountCode := "400" } : LineItem).AccountCode = "400" :=
  claim6_parse_line_item_spec.2.1 "2 Widget A $10.00 $20.00"
    { Description := "Widget A", Quantity := 2, UnitAmount := 10,
      AccountCode := "400" }
    claim6_parse_line_item_spec.2.2.1

/-- C10: whenever `_parse_line_item` returns a record, its quantity is
a non-negative integer-valued number (group 1 is digits-only) and its
unit amount is non-negative (group 3 carries no sign). -/
theorem claim10_parsed_item_invariants :
    ∀ s li, parse_line_item s = Except.ok (some li) →
      li.Quantity.den = 1 ∧ 0 ≤ li.Quantity ∧ 0 ≤ li.UnitAmount := by
  intro s li h
  obtain ⟨-, hq, hu, -⟩ := parse_line_item_inv s li h
  cases hg : lineItemGroups s with
  | none => rw [hg] at hq; exact absurd hq (by simp)
  | some g =>
    rw [hg] at hq hu
    simp only [Option.map_some', Option.some_bind] at hq hu
    injection hq with hq'
    refine ⟨?_, ?_, ?_⟩
    · rw [← hq']
      exact Rat.den_natCast _
    · rw [← hq']
      positivity
    · exact pyFloat_nonneg _ _ hu

/-- C10 witness: the invariants at the documented example record. -/
theorem claim10_parsed_item_invariants_witness :
    ({ Description := "Widget A", Quantity := 2, UnitAmount := 10,
       AccountCode := "400" } : LineItem).Quantity.den = 1 ∧
    0 ≤ ({ Description := "Widget A", Quantity := 2, UnitAmount := 10,
           AccountCode := "400" } : LineItem).Quantity ∧
    0 ≤ ({ Description := "Widget A", Quantity := 2, UnitAmount := 10,
           AccountCode := "400" } : LineItem).UnitAmount :=
  claim10_parsed_item_invariants "2 Widget A $10.00 $20.00"
    { Description := "Widget A", Quantity := 2, UnitAmount := 10,
      AccountCode := "400" }
    (by
      have hg : lineItemGroups "2 Widget A $10.00 $20.00" =
          some ("2".data, "Widget A".data, "10.00".data, "20.00".data) := by
        decide
      have hq : pyFloat "2".data = some 2 :=
        pyFloat_eq_of_parts _ 2 0 2 (by decide) (by norm_num)
      have hu : pyFloat "10.00".data = some 10 :=
        pyFloat_eq_of_parts _ 1000 2 10 (by decide) (by norm_num)
      simp [parse_line_item, hg, hq, hu]
      decide)

/-- C7 counterexample: the claim says `strip_newlines` replaces each
`'\r'` with a single space; the code replaces `'\r'` with the *empty*
string (`.replace('\r', '')`), so `"a\rb"` becomes `"ab"`, not
`"a b"`. -/
theorem claim7_strip_newlines_counterexample :
    strip_newlines "a\rb" = "ab" ∧ ("ab" : String) ≠ "a b" :=
  ⟨rfl, by decide⟩

/-- C7 amended: `strip_newlines` replaces each `'\n'` with a single
space and *removes* each `'\r'` (replaces it with the empty string);
it is applied to every entity's mention text before any other
processing in both pipelines — each pipeline's result depends on an
entity only through its field type and newline-cleaned text. -/
theorem claim7_strip_newlines_amended :
    (∀ s, (strip_newlines s).data =
      List.filter (fun c => c ≠ '\r')
        (List.map (fun c => if c = '\n' then ' ' else c) s.data)) ∧
    (∀ es es', es.map entityKey = es'.map entityKey →
      process_and_transform es = process_and_transform es') ∧
    (∀ es es', es.map entityKey = es'.map entityKey →
      process_the_invoice_fields [] es = process_the_invoice_fields [] es') := by
  refine ⟨?_, ?_, ?_⟩
  · intro s
    exact replace_nl_cr s.data
  · intro es es' h
    unfold process_and_transform
    rw [buildRawData_eq_keyed es initRawData,
      buildRawData_eq_keyed es' initRawData, h]
  · intro es es' h
    rw [processFields_eq_keyed es [], processFields_eq_keyed es' [], h]

/-- C7 amended witness: both invariance clauses applied to a pair of
entity sequences whose texts differ only before newline cleanup. -/
theorem claim7_strip_newlines_amended_witness :
    process_and_transform [⟨"supplier_name", "a\nb"⟩] =
      process_and_transform [⟨"supplier_name", "a b"⟩] ∧
    process_the_invoice_fields [] [⟨"note", "a\nb"⟩] =
      process_the_invoice_fields [] [⟨"note", "a b"⟩] :=
  ⟨claim7_strip_newlines_amended.2.1 _ _ (by decide),
   claim7_strip_newlines_amended.2.2 _ _ (by decide)⟩

/-- C8 counterexample: the claim says exactly comma, semicolon, colon
and middle-dot are stripped from the right; the source literal
`",;:Â·"` (mojibake for `",;:·"`) also contains `'Â'` (U+00C2), so
`"AcmeÂ"` is cleaned to `"Acme"` instead of being left unchanged. -/
theorem claim8_clean_supplier_counterexample :
    clean_supplier (some "AcmeÂ") = "Acme" ∧ ("Acme" : String) ≠ "AcmeÂ" :=
  ⟨rfl, by decide⟩

/-- C8 amended: `_clean_supplier` maps missing/empty input to `""`,
trims surrounding whitespace, and then repeatedly strips from the
right end exactly the five characters comma, semicolon, colon, `'Â'`
(U+00C2, a mojibake artifact of the middle dot's UTF-8 bytes) and the
middle dot `'·'` — equivalently, a right-to-left recursion that drops
the trailing run of characters from that set. -/
theorem claim8_clean_supplier_amended :
    clean_supplier none = "" ∧
    clean_supplier (some "") = "" ∧
    clean_supplier (some "Acme Corp,;:·") = "Acme Corp" ∧
    clean_supplier (some "  Acme Corp  ") = "Acme Corp" ∧
    clean_supplier (some "Acme·Â,") = "Acme" ∧
    supplierStripSet = [',', ';', ':', 'Â', '·'] ∧
    (∀ s, clean_supplier (some s) =
      ⟨stripTrailing supplierStripSet (pyStripList s.data)⟩) := by
  refine ⟨rfl, rfl, rfl, rfl, rfl, rfl, ?_⟩
  intro s
  show String.mk (rstripChars supplierStripSet (pyStripList s.data)) = _
  rw [rstripChars_eq_stripTrailing]

/-- C9 counterexample: on the empty entity sequence the code does not
produce an empty supplier, empty date and null total — it produces the
defaults `"Unknown Supplier"`, the placeholder `"YYYY-MM-DD"` and the
number `0.0`. -/
theorem claim9_empty_counterexample :
    process_and_transform [] =
      PipeResult.ok
        { Type_ := "ACCPAY", ContactName := "Unknown Supplier",
          Date := "YYYY-MM-DD", DueDate := "YYYY-MM-DD",
          LineAmountTypes := "Exclusive", LineItems := [],
          Status := "DRAFT", InvoiceNumber := none,
          CurrencyCode := "GBP", Total := some 0 } ∧
    ("Unknown Supplier" : String) ≠ "" ∧
    ("YYYY-MM-DD" : String) ≠ "" ∧
    (some (0 : ℚ) : Option ℚ) ≠ none :=
  ⟨rfl, by decide, by decide, by decide⟩

/-- C9 amended: normalizing the empty entity sequence does not raise
and yields the default record — contact name `"Unknown Supplier"`,
date and due date the placeholder `"YYYY-MM-DD"`, total the number
`0.0` (not null), no invoice number, default currency `"GBP"` and an
empty line-item sequence. -/
theorem claim9_empty_amended :
    process_and_transform [] =
      PipeResult.ok
        { Type_ := "ACCPAY", ContactName := "Unknown Supplier",
          Date := "YYYY-MM-DD", DueDate := "YYYY-MM-DD",
          LineAmountTypes := "Exclusive", LineItems := [],
          Status := "DRAFT", InvoiceNumber := none,
          CurrencyCode := "GBP", Total := some 0 } := rfl

end InvoiceApp
